import Mathlib

/-!
Verification development for the stslgo time-series wrapper library.

The development shallowly embeds the two self-contained algorithms of the
library and the facade behaviors around them:

* the duration codec rpInt64ToString / rpStringToInt64,
* the shard-group tier selection of UpdateTimeSeriesDBRetentionPolicy,
* the recursive JSON flattening engine _flatten with its helpers
  _createkey and _matchkey,
* the field-kind filter of InsertJson / InsertUnmarshalledJsonRows,
* the Get facade method with the external Query call abstracted by its
  outcome.

Go dynamic values of type interface are modeled by the inductive GoValue.
Go maps are modeled as association lists iterated in list order; Go map
iteration order is unspecified, and the modeled claims do not depend on
it.  Machine integers are modeled by Nat; all quantified statements about
int64 values carry the bound 2 to the 63rd power where the Go value range
matters, and no modeled computation overflows within those bounds.
-/

namespace Stslgo

/-- One decimal digit as a character, as produced by Go strconv.FormatInt
in base 10. -/
def digitChar (d : Nat) : Char := Char.ofNat (48 + d)

/-- Decimal digits of a natural number, most significant first, with a
fuel argument making the recursion structural.  Produces nothing for 0
(FormatInt is only reached with a nonzero argument in the source loop). -/
def natDigitsAux : Nat → Nat → List Char
  | _, 0 => []
  | 0, _ + 1 => []
  | f + 1, n + 1 => natDigitsAux f ((n + 1) / 10) ++ [digitChar ((n + 1) % 10)]

/-- Decimal digits of a natural number, most significant first. -/
def natDigits (n : Nat) : List Char := natDigitsAux n n

/-- Go strconv.FormatInt in base 10, restricted to nonnegative input. -/
def formatNat (n : Nat) : List Char := if n = 0 then ['0'] else natDigits n

/-- The character is an ascii decimal digit.  The Go loop in
rpStringToInt64 tests the complement, c below zero or c above nine. -/
def isDigitCh (c : Char) : Bool := decide ('0' ≤ c) && decide (c ≤ '9')

/-- Numeric value of a digit buffer, as strconv.ParseInt computes it on
all-digit input; the empty buffer yields 0, matching the ignored-error
path of ParseInt on an empty string. -/
def digitsToNat (cs : List Char) : Nat :=
  cs.foldl (fun acc c => acc * 10 + (c.toNat - 48)) 0

/-- Seconds denoted by each unit letter recognized by rpStringToInt64. -/
def unitSeconds (c : Char) : Option Nat :=
  if c = 'w' then some (7 * 24 * 60 * 60)
  else if c = 'd' then some (24 * 60 * 60)
  else if c = 'h' then some (60 * 60)
  else if c = 'm' then some 60
  else if c = 's' then some 1
  else none

/-- Failure of rpStringToInt64: an unrecognized unit letter. -/
inductive RpErr where
  | invalidUnit
deriving DecidableEq

/-- The character loop of rpStringToInt64: buf is the pending digit run
and duration the seconds accumulated so far.  A digit extends the run; a
unit letter adds the run value times the unit seconds and resets the run;
any other character fails.  A trailing run not closed by a unit letter is
discarded at end of input, exactly as in the source. -/
def rpGo : List Char → List Char → Nat → Except RpErr Nat
  | [], _, duration => .ok duration
  | c :: rest, buf, duration =>
    if isDigitCh c then rpGo rest (buf ++ [c]) duration
    else
      match unitSeconds c with
      | some u => rpGo rest [] (duration + digitsToNat buf * u)
      | none => .error .invalidUnit

/-- Go rpStringToInt64.  The source short-circuits the empty string to 0,
which coincides with running the loop on no characters. -/
def rpStringToInt64 (retentionPolicy : List Char) : Except RpErr Nat :=
  rpGo retentionPolicy [] 0

/-- The unit table wdhms of rpInt64ToString. -/
def wdhms : List (Char × Nat) :=
  [('w', 7 * 24 * 60 * 60), ('d', 24 * 60 * 60), ('h', 60 * 60), ('m', 60), ('s', 1)]

/-- The loop of rpInt64ToString: greedy division by each unit in turn,
emitting count and unit letter for each nonzero count. -/
def rpLoop : Nat → List (Char × Nat) → List Char
  | _, [] => []
  | duration, (u, asSec) :: rest =>
    (if duration / asSec ≠ 0 then formatNat (duration / asSec) ++ [u] else [])
      ++ rpLoop (duration % asSec) rest

/-- Go rpInt64ToString: 0 maps to the empty string, otherwise the greedy
decomposition over weeks, days, hours, minutes, seconds. -/
def rpInt64ToString (duration : Nat) : List Char :=
  if duration = 0 then [] else rpLoop duration wdhms

/-- The value rpStringToInt64 yields through a Go multiple assignment
that discards the error: 0 on the error path, since the source returns
0 together with the error. -/
def rpValue (s : List Char) : Nat :=
  match rpStringToInt64 s with
  | .ok v => v
  | .error _ => 0

/-- The shard-group tier selection of UpdateTimeSeriesDBRetentionPolicy:
strictly above 60 days or infinite selects one week, otherwise strictly
above 2 days selects one day, otherwise one hour. -/
def shardGroupDurationFor (duration : Nat) : List Char :=
  if duration > rpValue ("60d".toList) ∨ duration = 0 then "1w".toList
  else if duration > rpValue ("2d".toList) then "1d".toList
  else "1h".toList

/-- The seconds value pushed for the selected shard-group tier. -/
def shardGroupDurationSecondsFor (duration : Nat) : Nat :=
  rpValue (shardGroupDurationFor duration)

/-- Rendering of a list of duration tokens, each a count followed by its
unit letter, concatenated without separators. -/
def tokensRender (toks : List (Nat × Char)) : List Char :=
  (toks.map (fun t => formatNat t.1 ++ [t.2])).flatten

/-- Total seconds denoted by a list of duration tokens. -/
def tokensValue (toks : List (Nat × Char)) : Nat :=
  (toks.map (fun t => t.1 * (unitSeconds t.2).getD 0)).sum

theorem digitsToNat_foldl (l : List Char) (a : Nat) :
    List.foldl (fun acc c => acc * 10 + (c.toNat - 48)) a l =
      a * 10 ^ l.length + digitsToNat l := by
  induction l generalizing a with
  | nil => simp [digitsToNat]
  | cons c cs ih =>
    have hl : digitsToNat (c :: cs) = (c.toNat - 48) * 10 ^ cs.length + digitsToNat cs := by
      show List.foldl _ (0 * 10 + (c.toNat - 48)) cs = _
      rw [ih (0 * 10 + (c.toNat - 48))]
      ring
    show List.foldl _ (a * 10 + (c.toNat - 48)) cs = _
    rw [ih (a * 10 + (c.toNat - 48)), hl]
    simp [List.length_cons, pow_succ]
    ring

theorem digitChar_toNat (d : Nat) (h : d < 10) : (digitChar d).toNat = 48 + d := by
  interval_cases d <;> rfl

theorem isDigitCh_digitChar (d : Nat) (h : d < 10) : isDigitCh (digitChar d) = true := by
  interval_cases d <;> rfl

theorem natDigitsAux_digits (f : Nat) :
    ∀ n, ∀ c ∈ natDigitsAux f n, isDigitCh c = true := by
  induction f with
  | zero =>
    intro n c hc
    cases n <;> simp [natDigitsAux] at hc
  | succ f ih =>
    intro n c hc
    cases n with
    | zero => simp [natDigitsAux] at hc
    | succ m =>
      rw [natDigitsAux] at hc
      rcases List.mem_append.mp hc with h1 | h1
      · exact ih _ c h1
      · rcases List.mem_singleton.mp h1 with rfl
        exact isDigitCh_digitChar _ (Nat.mod_lt _ (by omega))

theorem digitsToNat_natDigitsAux (f : Nat) :
    ∀ n, n ≤ f → digitsToNat (natDigitsAux f n) = n := by
  induction f with
  | zero =>
    intro n hn
    interval_cases n
    simp [natDigitsAux, digitsToNat]
  | succ f ih =>
    intro n hn
    cases n with
    | zero => simp [natDigitsAux, digitsToNat]
    | succ m =>
      have hdiv : (m + 1) / 10 ≤ f := by omega
      rw [natDigitsAux]
      unfold digitsToNat
      rw [List.foldl_append]
      show List.foldl _ (digitsToNat (natDigitsAux f ((m + 1) / 10))) [digitChar ((m + 1) % 10)] = m + 1
      rw [ih _ hdiv]
      simp only [List.foldl_cons, List.foldl_nil]
      rw [digitChar_toNat _ (Nat.mod_lt _ (by omega))]
      omega

theorem formatNat_digits (n : Nat) : ∀ c ∈ formatNat n, isDigitCh c = true := by
  unfold formatNat
  split
  · intro c hc
    rcases List.mem_singleton.mp hc with rfl
    rfl
  · exact natDigitsAux_digits n n

theorem digitsToNat_formatNat (n : Nat) : digitsToNat (formatNat n) = n := by
  unfold formatNat
  split
  · simp_all [digitsToNat]
  · exact digitsToNat_natDigitsAux n n le_rfl

theorem rpGo_digits (ds : List Char) (hds : ∀ c ∈ ds, isDigitCh c = true) :
    ∀ rest buf acc, rpGo (ds ++ rest) buf acc = rpGo rest (buf ++ ds) acc := by
  induction ds with
  | nil => simp
  | cons c cs ih =>
    intro rest buf acc
    have hc : isDigitCh c = true := hds c (by simp)
    show rpGo (c :: (cs ++ rest)) buf acc = _
    rw [rpGo, if_pos hc, ih (fun d hd => hds d (by simp [hd])) rest (buf ++ [c]) acc]
    simp

theorem unitSeconds_cases (c : Char) (u : Nat) (h : unitSeconds c = some u) :
    c = 'w' ∨ c = 'd' ∨ c = 'h' ∨ c = 'm' ∨ c = 's' := by
  unfold unitSeconds at h
  split_ifs at h <;> tauto

theorem unitSeconds_not_digit (c : Char) (u : Nat) (h : unitSeconds c = some u) :
    isDigitCh c = false := by
  rcases unitSeconds_cases c u h with h1 | h1 | h1 | h1 | h1 <;> subst h1 <;> rfl

theorem rpGo_unit (c : Char) (u : Nat) (h : unitSeconds c = some u)
    (rest buf : List Char) (acc : Nat) :
    rpGo (c :: rest) buf acc = rpGo rest [] (acc + digitsToNat buf * u) := by
  rw [rpGo, if_neg (by simp [unitSeconds_not_digit c u h]), h]

theorem rpGo_component (p sec : Nat) (c : Char) (h : unitSeconds c = some sec)
    (rest : List Char) (acc : Nat) :
    rpGo ((if p ≠ 0 then formatNat p ++ [c] else []) ++ rest) [] acc =
      rpGo rest [] (acc + p * sec) := by
  by_cases hp : p = 0
  · simp [hp]
  · rw [if_pos hp, List.append_assoc,
      rpGo_digits (formatNat p) (formatNat_digits p) ([c] ++ rest) [] acc,
      List.nil_append, List.singleton_append,
      rpGo_unit c sec h rest (formatNat p) acc, digitsToNat_formatNat]

theorem rpGo_tokens (toks : List (Nat × Char))
    (h : ∀ t ∈ toks, (unitSeconds t.2).isSome = true) :
    ∀ acc, rpGo (tokensRender toks) [] acc = .ok (acc + tokensValue toks) := by
  induction toks with
  | nil => intro acc; simp [tokensRender, tokensValue, rpGo]
  | cons t ts ih =>
    intro acc
    obtain ⟨sec, hsec⟩ := Option.isSome_iff_exists.mp (h t (by simp))
    have hrender : tokensRender (t :: ts) = (formatNat t.1 ++ [t.2]) ++ tokensRender ts := by
      simp [tokensRender]
    rw [hrender, List.append_assoc,
      rpGo_digits (formatNat t.1) (formatNat_digits t.1) ([t.2] ++ tokensRender ts) [] acc,
      List.nil_append, List.singleton_append,
      rpGo_unit t.2 sec hsec (tokensRender ts) (formatNat t.1) acc,
      digitsToNat_formatNat, ih (fun u hu => h u (by simp [hu]))]
    have hval : tokensValue (t :: ts) = t.1 * sec + tokensValue ts := by
      simp [tokensValue, hsec]
    rw [hval]
    congr 1
    omega

theorem rpGo_append_trailing (ds : List Char) (hds : ∀ c ∈ ds, isDigitCh c = true) :
    ∀ l buf acc, rpGo (l ++ ds) buf acc = rpGo l buf acc := by
  intro l
  induction l with
  | nil =>
    intro buf acc
    rw [List.nil_append, show ds = ds ++ ([] : List Char) by simp,
      rpGo_digits ds hds [] buf acc]
    rfl
  | cons c cs ih =>
    intro buf acc
    show rpGo (c :: (cs ++ ds)) buf acc = _
    rw [rpGo, rpGo]
    by_cases hc : isDigitCh c = true
    · rw [if_pos hc, if_pos hc, ih]
    · rw [if_neg hc, if_neg hc]
      cases hu : unitSeconds c with
      | none => rfl
      | some u => simp only [ih]

/-- Claim C1: for every nonnegative int64 value n, rendering n seconds as
compound duration text with rpInt64ToString and parsing the text back
with rpStringToInt64 yields exactly n. -/
theorem rp_roundTrip (n : Nat) (h : n < 2 ^ 63) :
    rpStringToInt64 (rpInt64ToString n) = .ok n := by
  by_cases h0 : n = 0
  · subst h0; rfl
  · unfold rpStringToInt64 rpInt64ToString
    rw [if_neg h0]
    simp only [wdhms, rpLoop]
    rw [rpGo_component (n / (7 * 24 * 60 * 60)) (7 * 24 * 60 * 60) 'w' rfl,
      rpGo_component _ (24 * 60 * 60) 'd' rfl,
      rpGo_component _ (60 * 60) 'h' rfl,
      rpGo_component _ 60 'm' rfl,
      rpGo_component _ 1 's' rfl]
    show rpGo [] [] _ = _
    rw [rpGo]
    congr 1
    omega

/-- Claim C1 witness at a concrete input. -/
theorem rp_roundTrip_witness :
    12345678 < 2 ^ 63 ∧
      rpStringToInt64 (rpInt64ToString 12345678) = .ok 12345678 :=
  ⟨by decide, rp_roundTrip 12345678 (by decide)⟩

/-- Claim C5: rpStringToInt64 reads digit runs each terminated by one of
the unit letters w, d, h, m, s and sums digits times unit seconds across
the whole string; repeated units are additive rather than rejected; the
concrete example 3w4d12m30s evaluates as the spec states; an unrecognized
terminator character fails with the invalid-unit error; empty input
yields 0. -/
theorem rp_parse_spec :
    rpStringToInt64 [] = .ok 0 ∧
    rpStringToInt64 ("3w4d12m30s".toList) =
      .ok (3 * 604800 + 4 * 86400 + 12 * 60 + 30) ∧
    (∀ toks : List (Nat × Char),
      (∀ t ∈ toks, (unitSeconds t.2).isSome = true) →
      tokensValue toks < 2 ^ 63 →
      rpStringToInt64 (tokensRender toks) = .ok (tokensValue toks)) ∧
    (∀ (ds : List Char) (c : Char) (rest : List Char),
      (∀ d ∈ ds, isDigitCh d = true) → isDigitCh c = false → unitSeconds c = none →
      rpStringToInt64 (ds ++ c :: rest) = .error .invalidUnit) := by
  refine ⟨rfl, rfl, ?_, ?_⟩
  · intro toks h _
    have := rpGo_tokens toks h 0
    simpa [rpStringToInt64] using this
  · intro ds c rest hds hc hu
    unfold rpStringToInt64
    rw [show ds ++ c :: rest = ds ++ ([c] ++ rest) by simp,
      rpGo_digits ds hds ([c] ++ rest) [] 0, List.singleton_append,
      rpGo, if_neg (by simp [hc]), hu]

/-- Claim C5 witness: repeated units are additive, at a concrete token
list whose rendering is the string 5s10s. -/
theorem rp_parse_spec_witness :
    rpStringToInt64 (tokensRender [(5, 's'), (10, 's')]) =
      .ok (tokensValue [(5, 's'), (10, 's')]) :=
  rp_parse_spec.2.2.1 [(5, 's'), (10, 's')] (by decide) (by decide)

/-- Claim C10: a trailing digit run not terminated by a unit letter is
silently discarded by rpStringToInt64: appending trailing digits never
changes the result, the all-digit input 30 parses to 0 seconds with no
error, and 1h30 parses to 3600 seconds with no error. -/
theorem rp_trailing_digits_dropped :
    (∀ (s ds : List Char), (∀ c ∈ ds, isDigitCh c = true) →
      rpStringToInt64 (s ++ ds) = rpStringToInt64 s) ∧
    rpStringToInt64 ("30".toList) = .ok 0 ∧
    rpStringToInt64 ("1h30".toList) = .ok 3600 :=
  ⟨fun s ds h => rpGo_append_trailing ds h s [] 0, rfl, rfl⟩

/-- Claim C10 witness: appending the trailing digits 30 to 1h leaves the
parse result unchanged. -/
theorem rp_trailing_digits_dropped_witness :
    rpStringToInt64 ("1h".toList ++ "30".toList) = rpStringToInt64 ("1h".toList) :=
  rp_trailing_digits_dropped.1 ("1h".toList) ("30".toList) (by decide)

/-- Claim C3 counterexample: a retention of exactly 60 days selects the
one-day shard group tier, not one week, and exactly 2 days selects one
hour, not one day, because the source comparisons are strict. -/
theorem shardGroup_sixtyDays_cex :
    rpValue ("60d".toList) = 5184000 ∧
    shardGroupDurationFor 5184000 = "1d".toList ∧
    rpValue ("2d".toList) = 172800 ∧
    shardGroupDurationFor 172800 = "1h".toList :=
  ⟨rfl, rfl, rfl, rfl⟩

/-- Claim C3 amended: the shard-group tier is selected by strict
comparisons: strictly above 60 days or infinite (0) maps to one week
(604800 seconds), otherwise strictly above 2 days maps to one day (86400
seconds), otherwise one hour (3600 seconds); exactly 60 days therefore
yields the one-day tier and exactly 2 days the one-hour tier. -/
theorem shardGroup_tiers_amended (d : Nat) :
    ((5184000 < d ∨ d = 0) →
      shardGroupDurationFor d = "1w".toList ∧
        shardGroupDurationSecondsFor d = 604800) ∧
    (172800 < d → d ≤ 5184000 →
      shardGroupDurationFor d = "1d".toList ∧
        shardGroupDurationSecondsFor d = 86400) ∧
    (0 < d → d ≤ 172800 →
      shardGroupDurationFor d = "1h".toList ∧
        shardGroupDurationSecondsFor d = 3600) := by
  have h60 : rpValue ("60d".toList) = 5184000 := rfl
  have h2 : rpValue ("2d".toList) = 172800 := rfl
  unfold shardGroupDurationSecondsFor shardGroupDurationFor
  rw [h60, h2]
  refine ⟨?_, ?_, ?_⟩
  · intro h
    rw [if_pos (by omega)]
    exact ⟨rfl, rfl⟩
  · intro ha hb
    rw [if_neg (by omega), if_pos (by omega)]
    exact ⟨rfl, rfl⟩
  · intro ha hb
    rw [if_neg (by omega), if_neg (by omega)]
    exact ⟨rfl, rfl⟩

/-- Claim C3 amended witness at a concrete input strictly above 60 days. -/
theorem shardGroup_tiers_amended_witness :
    shardGroupDurationFor 5184001 = "1w".toList ∧
      shardGroupDurationSecondsFor 5184001 = 604800 :=
  (shardGroup_tiers_amended 5184001).1 (Or.inl (by decide))

mutual

/-- A Go dynamic value as it occurs in the flattening and field-building
code: the JSON-decodable kinds plus the Go int kind that caller-built
rows may contain, and the untyped nil. -/
inductive GoValue where
  | vnil
  | vbool (b : Bool)
  | vfloat (x : Int)
  | vint (i : Int)
  | vstr (s : String)
  | varr (elems : GoList)
  | vmap (fields : GoFields)

/-- A Go slice of dynamic values. -/
inductive GoList where
  | nil
  | cons (hd : GoValue) (tl : GoList)

/-- The entries of a Go map from strings to dynamic values, in the order
the model iterates them; Go map iteration order is unspecified and the
modeled claims do not depend on it. -/
inductive GoFields where
  | nil
  | cons (key : String) (val : GoValue) (tl : GoFields)

end

mutual

/-- Structural size of a value, the fuel bound for the embeddings. -/
def goSize : GoValue → Nat
  | .vnil => 1
  | .vbool _ => 1
  | .vfloat _ => 1
  | .vint _ => 1
  | .vstr _ => 1
  | .varr elems => 1 + goListSize elems
  | .vmap fields => 1 + goFieldsSize fields

def goListSize : GoList → Nat
  | .nil => 1
  | .cons hd tl => 1 + goSize hd + goListSize tl

def goFieldsSize : GoFields → Nat
  | .nil => 1
  | .cons _ v tl => 1 + goSize v + goFieldsSize tl

end

/-- The value is a map or a slice. -/
def isContainer : GoValue → Bool
  | .vmap _ => true
  | .varr _ => true
  | _ => false

/-- The value is a scalar other than the untyped nil. -/
def isNonNilScalar : GoValue → Bool
  | .vbool _ => true
  | .vfloat _ => true
  | .vint _ => true
  | .vstr _ => true
  | _ => false

theorem goSize_pos (v : GoValue) : 0 < goSize v := by
  cases v <;> simp [goSize]

/-- Byte-wise strict comparison of key strings, as Go json.Marshal sorts
object keys. -/
def charListLtb : List Char → List Char → Bool
  | [], [] => false
  | [], _ :: _ => true
  | _ :: _, [] => false
  | a :: as, b :: bs =>
    if a < b then true else if b < a then false else charListLtb as bs

def strLtb (a b : String) : Bool := charListLtb a.toList b.toList

def insertField (k : String) (v : GoValue) : GoFields → GoFields
  | .nil => .cons k v .nil
  | .cons k2 v2 tl =>
    if strLtb k2 k then .cons k2 v2 (insertField k v tl) else .cons k v (.cons k2 v2 tl)

/-- Object fields sorted by key ascending, as Go json.Marshal emits map
entries. -/
def sortFields : GoFields → GoFields
  | .nil => .nil
  | .cons k v rest => insertField k v (sortFields rest)

/-- JSON string escaping for quote and backslash; the further escaping Go
applies to control and html characters is outside the modeled domain. -/
def escapeChar (c : Char) : List Char :=
  if c = '"' then ['\\', '"'] else if c = '\\' then ['\\', '\\'] else [c]

def quoteStr (s : String) : String :=
  "\"" ++ String.mk (s.toList.foldr (fun c acc => escapeChar c ++ acc) []) ++ "\""

/-- Decimal rendering of an integer-valued number, as Go json.Marshal
prints integer-valued float64 and int values. -/
def intStr (i : Int) : String :=
  if i < 0 then "-" ++ String.mk (formatNat (-i).toNat)
  else String.mk (formatNat i.toNat)

/-- Comma-joined rendering of slice elements with the given renderer. -/
def renderElems (g : GoValue → String) : GoList → String
  | .nil => ""
  | .cons v .nil => g v
  | .cons v (.cons w tl) => g v ++ "," ++ renderElems g (.cons w tl)

/-- Comma-joined rendering of object entries with the given renderer. -/
def renderFields (g : GoValue → String) : GoFields → String
  | .nil => ""
  | .cons k v .nil => quoteStr k ++ ":" ++ g v
  | .cons k v (.cons k2 v2 tl) =>
    quoteStr k ++ ":" ++ g v ++ "," ++ renderFields g (.cons k2 v2 tl)

/-- Compact JSON serialization of a value, mirroring Go json.Marshal on
the modeled domain; the fuel argument bounds nesting depth and makes the
recursion structural. -/
def jsonMarshalAux : Nat → GoValue → String
  | _, .vnil => "null"
  | _, .vbool true => "true"
  | _, .vbool false => "false"
  | _, .vfloat x => intStr x
  | _, .vint i => intStr i
  | _, .vstr s => quoteStr s
  | 0, .varr _ => ""
  | 0, .vmap _ => ""
  | f + 1, .varr elems =>
    "[" ++ renderElems (fun v => jsonMarshalAux f v) elems ++ "]"
  | f + 1, .vmap fields =>
    "\x7b" ++ renderFields (fun v => jsonMarshalAux f v) (sortFields fields) ++ "\x7d"

def jsonMarshal (v : GoValue) : String := jsonMarshalAux (goSize v) v

/-- Outcome of the v2 _flatten: the invalid-input error of the source,
the modeled runtime panic of calling Kind on a nil reflect type, and the
fuel sentinel of the embedding (never reached from flattenRoot, whose
fuel bounds the recursion depth from above). -/
inductive FlatErr where
  | invalidInput
  | nilKindPanic
  | outOfFuel
deriving DecidableEq

abbrev FlatMap := List (String × GoValue)

/-- Go map assignment on the flat result map: overwrite the binding in
place if the key exists, otherwise append it. -/
def setk (m : FlatMap) (k : String) (v : GoValue) : FlatMap :=
  if m.any (fun p => p.1 == k) then
    m.map (fun p => if p.1 == k then (k, v) else p)
  else m ++ [(k, v)]

/-- Go strconv.Itoa on array indices. -/
def itoa (n : Nat) : String := String.mk (formatNat n)

def _createkey (top : Bool) (pfx subkey : String) : String :=
  if top then pfx ++ subkey else pfx ++ "." ++ subkey

def _matchkey (ignorelist : List String) (value : String) : Bool :=
  match ignorelist with
  | [] => false
  | val :: rest => if val = value then true else _matchkey rest value

/-- Error-propagating left fold over the entries of a Go map, modeling a
range loop whose body may return an error. -/
def foldFieldsM (f : FlatMap → String → GoValue → Except FlatErr FlatMap) :
    FlatMap → GoFields → Except FlatErr FlatMap
  | m, .nil => .ok m
  | m, .cons k v tl =>
    match f m k v with
    | .ok m2 => foldFieldsM f m2 tl
    | .error e => .error e

/-- Error-propagating left fold over the elements of a Go slice with the
running index, modeling an indexed range loop. -/
def foldElemsM (f : FlatMap → Nat → GoValue → Except FlatErr FlatMap) :
    FlatMap → Nat → GoList → Except FlatErr FlatMap
  | m, _, .nil => .ok m
  | m, i, .cons v tl =>
    match f m i v with
    | .ok m2 => foldElemsM f m2 (i + 1) tl
    | .error e => .error e

/-- Shallow embedding of the v2 _flatten.  The fuel argument counts one
unit per nested _flatten call and makes the recursion structural;
flattenRoot passes the size of the value, which bounds the nesting
depth, so the fuel sentinel is never reached on runs it starts.  The
nilKindPanic result models the runtime panic of calling Kind on the nil
reflect type of an untyped nil value. -/
def _flatten : Nat → Bool → FlatMap → GoValue → String → List String →
    Except FlatErr FlatMap
  | 0, _, _, _, _, _ => .error .outOfFuel
  | fuel + 1, top, flatMap, nested, pfx, ignorelist =>
    let assign : FlatMap → String → GoValue → Bool → Except FlatErr FlatMap :=
      fun m newKey v ignoretag =>
        if ignoretag then
          match v with
          | .vmap _ => .ok (setk m newKey (.vstr (jsonMarshal v)))
          | .varr _ => .ok (setk m newKey (.vstr (jsonMarshal v)))
          | _ => .ok (setk m newKey v)
        else
          match v with
          | .vmap _ => _flatten fuel false m v newKey ignorelist
          | .varr _ => _flatten fuel false m v newKey ignorelist
          | _ => .ok (setk m newKey v)
    match nested with
    | .vnil => .error .nilKindPanic
    | .vmap fields =>
      foldFieldsM
        (fun m k v =>
          if _matchkey ignorelist k && (pfx == "") then
            assign m k v true
          else if _matchkey ignorelist k then
            assign m (_createkey top pfx k) v true
          else
            assign m (_createkey top pfx k) v false)
        flatMap fields
    | .varr elems =>
      foldElemsM
        (fun m i v =>
          match v with
          | .vnil => .error .nilKindPanic
          | .vmap tags =>
            foldFieldsM
              (fun m2 tag value =>
                if _matchkey ignorelist tag then
                  assign m2 (_createkey top pfx (itoa i ++ "." ++ tag)) value true
                else
                  assign m2 (_createkey top pfx (itoa i)) (.vmap tags) false)
              m tags
          | _ => assign m (_createkey top pfx (itoa i)) v false)
        flatMap 0 elems
    | _ => .error .invalidInput

/-- Entry into _flatten as the exported Flatten performs it: top level
true, fresh empty result map; the fuel is the size of the value. -/
def flattenRoot (nested : GoValue) (pfx : String) (ignoreKeyList : List String) :
    Except FlatErr FlatMap :=
  _flatten (goSize nested) true [] nested pfx ignoreKeyList

/-- The exported Flatten: the Go signature restricts the root to a map. -/
def Flatten (nested : GoFields) (pfx : String)
    (ignoreKeyList : List String) : Except FlatErr FlatMap :=
  flattenRoot (.vmap nested) pfx ignoreKeyList

theorem setk_nil (k : String) (v : GoValue) : setk [] k v = [(k, v)] := by
  simp [setk]

theorem setk_single_same (k : String) (a b : GoValue) :
    setk [(k, a)] k b = [(k, b)] := by
  simp [setk]

theorem setk_single_ne (k1 k2 : String) (a b : GoValue) (h : k1 ≠ k2) :
    setk [(k1, a)] k2 b = [(k1, a), (k2, b)] := by
  simp [setk, h]

/-- Claim C8: the v2 flattening engine is not total on valid JSON input:
an array containing a null element reaches the unguarded reflect kind
inspection with a nil value, modeled by the nilKindPanic outcome, instead
of emitting the element or returning one of the ordinary errors. -/
theorem flatten_null_array_elem_panics :
    flattenRoot (.varr (.cons (.vfloat 1) (.cons .vnil .nil))) "" [] =
      .error .nilKindPanic := rfl

/-- Claim C6 counterexample: a null root is neither an object nor an
array, yet flattening it does not return the invalid-input error; it
hits the nil reflect panic instead. -/
theorem flatten_root_nil_cex :
    flattenRoot .vnil "" [] = .error .nilKindPanic ∧
      FlatErr.nilKindPanic ≠ FlatErr.invalidInput :=
  ⟨rfl, by decide⟩

/-- Claim C6 amended: for every root value that is a scalar other than
null, flattening fails with the invalid-input error; a null root instead
triggers the nil reflect panic. -/
theorem flatten_root_scalar_invalid (v : GoValue) (pfx : String)
    (ig : List String) (h : isNonNilScalar v = true) :
    flattenRoot v pfx ig = .error .invalidInput := by
  cases v with
  | vnil => simp [isNonNilScalar] at h
  | varr l => simp [isNonNilScalar] at h
  | vmap l => simp [isNonNilScalar] at h
  | vbool b => rfl
  | vfloat x => rfl
  | vint i => rfl
  | vstr s => rfl

/-- Claim C6 amended witness at a concrete scalar root. -/
theorem flatten_root_scalar_invalid_witness :
    flattenRoot (.vfloat 7) "" [] = .error .invalidInput :=
  flatten_root_scalar_invalid (.vfloat 7) "" [] rfl

/-- Claim C2 counterexample: for an array element object with tags a
(ignored) and b (not ignored), the non-matching tag does not assign the
whole element unflattened under the key arr.0; instead the element is
flattened further, producing arr.0.a and arr.0.b and no arr.0 binding. -/
theorem flatten_array_nonmatching_recurses_cex :
    Flatten (.cons "arr" (.varr (.cons
        (.vmap (.cons "a" (.vfloat 1) (.cons "b" (.vfloat 2) .nil))) .nil)) .nil)
      "" ["a"] =
      .ok [("arr.0.a", .vfloat 1), ("arr.0.b", .vfloat 2)] ∧
    ([("arr.0.a", GoValue.vfloat 1), ("arr.0.b", GoValue.vfloat 2)] : FlatMap).lookup
      "arr.0" = none :=
  ⟨rfl, rfl⟩

/-- Claim C4: a key of the ignore set met while the prefix is empty is
emitted under the bare key name itself, with a container value stored as
its compact serialization string; and the concrete spec example with
keys x and y behaves exactly as the spec states. -/
theorem flatten_ignored_top_level :
    (∀ (k : String) (v : GoValue) (ig : List String),
      _matchkey ig k = true → isContainer v = true →
      Flatten (.cons k v .nil) "" ig = .ok [(k, .vstr (jsonMarshal v))]) ∧
    Flatten (.cons "x" (.vfloat 5)
        (.cons "y" (.vmap (.cons "z" (.vfloat 6) .nil)) .nil)) "" ["y"] =
      .ok [("x", .vfloat 5), ("y", .vstr "\x7b\"z\":6\x7d")] := by
  refine ⟨?_, rfl⟩
  intro k v ig hmk hc
  have hpos : 0 < goSize (GoValue.vmap (.cons k v .nil)) := goSize_pos _
  unfold Flatten flattenRoot
  rw [show goSize (GoValue.vmap (.cons k v .nil)) =
    goSize (GoValue.vmap (.cons k v .nil)) - 1 + 1 by omega]
  cases v with
  | vnil => simp [isContainer] at hc
  | vbool b => simp [isContainer] at hc
  | vfloat x => simp [isContainer] at hc
  | vint i => simp [isContainer] at hc
  | vstr s => simp [isContainer] at hc
  | varr l => simp [_flatten, foldFieldsM, hmk, setk_nil]
  | vmap fs => simp [_flatten, foldFieldsM, hmk, setk_nil]

/-- Claim C4 witness at a concrete ignored key with an object value. -/
theorem flatten_ignored_top_level_witness :
    Flatten (.cons "y" (.vmap (.cons "z" (.vfloat 6) .nil)) .nil) "" ["y"] =
      .ok [("y", .vstr (jsonMarshal (.vmap (.cons "z" (.vfloat 6) .nil))))] :=
  flatten_ignored_top_level.1 "y" (.vmap (.cons "z" (.vfloat 6) .nil)) ["y"] rfl rfl

/-- Claim C2 amended: in the array branch, for an object element holding
an ignored tag a and a non-ignored tag b, the matching pair is emitted
opaquely under createKey of prefix and index dot tag, while each
non-matching tag causes the whole element to be flattened recursively
with createKey of prefix and index as the new prefix; the element is not
assigned unflattened under that key. -/
theorem flatten_array_ignored_amended (w u : GoValue)
    (hw : isContainer w = true) (hu : isContainer u = false) :
    Flatten (.cons "arr" (.varr (.cons
        (.vmap (.cons "a" w (.cons "b" u .nil))) .nil)) .nil) "" ["a"] =
      .ok [("arr.0.a", .vstr (jsonMarshal w)), ("arr.0.b", u)] := by
  have m_arr : _matchkey ["a"] "arr" = false := rfl
  have m_a : _matchkey ["a"] "a" = true := rfl
  have m_b : _matchkey ["a"] "b" = false := rfl
  have k0 : _createkey true "" "arr" = "arr" := rfl
  have k1 : _createkey false "arr" (itoa 0 ++ "." ++ "a") = "arr.0.a" := rfl
  have k2 : _createkey false "arr" (itoa 0) = "arr.0" := rfl
  have k3 : _createkey false "arr.0" "a" = "arr.0.a" := rfl
  have k4 : _createkey false "arr.0" "b" = "arr.0.b" := rfl
  have c1 : (("arr" : String) == "") = false := rfl
  have c2 : (("arr.0" : String) == "") = false := rfl
  have hne : ∀ a b : GoValue,
      setk [("arr.0.a", a)] "arr.0.b" b = [("arr.0.a", a), ("arr.0.b", b)] :=
    fun a b => setk_single_ne _ _ a b (by decide)
  have hsz : 3 ≤ goSize (GoValue.vmap (.cons "arr" (.varr (.cons
      (.vmap (.cons "a" w (.cons "b" u .nil))) .nil)) .nil)) := by
    simp [goSize, goFieldsSize, goListSize]
    omega
  unfold Flatten flattenRoot
  rw [show goSize (GoValue.vmap (.cons "arr" (.varr (.cons
      (.vmap (.cons "a" w (.cons "b" u .nil))) .nil)) .nil)) =
    goSize (GoValue.vmap (.cons "arr" (.varr (.cons
      (.vmap (.cons "a" w (.cons "b" u .nil))) .nil)) .nil)) - 3 + 1 + 1 + 1
    from by omega]
  cases w with
  | vnil => simp [isContainer] at hw
  | vbool b => simp [isContainer] at hw
  | vfloat x => simp [isContainer] at hw
  | vint i => simp [isContainer] at hw
  | vstr s => simp [isContainer] at hw
  | varr l =>
    cases u with
    | varr l2 => simp [isContainer] at hu
    | vmap fs2 => simp [isContainer] at hu
    | vnil =>
      simp [_flatten, foldFieldsM, foldElemsM, m_arr, m_a, m_b, k0, k1, k2, k3, k4,
        c1, c2, setk_nil, setk_single_same, hne]
    | vbool b2 =>
      simp [_flatten, foldFieldsM, foldElemsM, m_arr, m_a, m_b, k0, k1, k2, k3, k4,
        c1, c2, setk_nil, setk_single_same, hne]
    | vfloat x2 =>
      simp [_flatten, foldFieldsM, foldElemsM, m_arr, m_a, m_b, k0, k1, k2, k3, k4,
        c1, c2, setk_nil, setk_single_same, hne]
    | vint i2 =>
      simp [_flatten, foldFieldsM, foldElemsM, m_arr, m_a, m_b, k0, k1, k2, k3, k4,
        c1, c2, setk_nil, setk_single_same, hne]
    | vstr s2 =>
      simp [_flatten, foldFieldsM, foldElemsM, m_arr, m_a, m_b, k0, k1, k2, k3, k4,
        c1, c2, setk_nil, setk_single_same, hne]
  | vmap fs =>
    cases u with
    | varr l2 => simp [isContainer] at hu
    | vmap fs2 => simp [isContainer] at hu
    | vnil =>
      simp [_flatten, foldFieldsM, foldElemsM, m_arr, m_a, m_b, k0, k1, k2, k3, k4,
        c1, c2, setk_nil, setk_single_same, hne]
    | vbool b2 =>
      simp [_flatten, foldFieldsM, foldElemsM, m_arr, m_a, m_b, k0, k1, k2, k3, k4,
        c1, c2, setk_nil, setk_single_same, hne]
    | vfloat x2 =>
      simp [_flatten, foldFieldsM, foldElemsM, m_arr, m_a, m_b, k0, k1, k2, k3, k4,
        c1, c2, setk_nil, setk_single_same, hne]
    | vint i2 =>
      simp [_flatten, foldFieldsM, foldElemsM, m_arr, m_a, m_b, k0, k1, k2, k3, k4,
        c1, c2, setk_nil, setk_single_same, hne]
    | vstr s2 =>
      simp [_flatten, foldFieldsM, foldElemsM, m_arr, m_a, m_b, k0, k1, k2, k3, k4,
        c1, c2, setk_nil, setk_single_same, hne]

/-- Claim C2 amended witness at a concrete element with an ignored
object-valued tag and a non-ignored scalar tag. -/
theorem flatten_array_ignored_amended_witness :
    Flatten (.cons "arr" (.varr (.cons
        (.vmap (.cons "a" (.vmap (.cons "c" (.vfloat 3) .nil))
          (.cons "b" (.vfloat 9) .nil))) .nil)) .nil) "" ["a"] =
      .ok [("arr.0.a", .vstr (jsonMarshal (.vmap (.cons "c" (.vfloat 3) .nil)))),
        ("arr.0.b", .vfloat 9)] :=
  flatten_array_ignored_amended (.vmap (.cons "c" (.vfloat 3) .nil)) (.vfloat 9) rfl rfl

/-- The reflect-kind filter applied by InsertJson and
InsertUnmarshalledJsonRows to each flattened entry: the value must be
non-nil and of kind Float64, String, Bool, or Int. -/
def keepFieldKind : GoValue → Bool
  | .vfloat _ => true
  | .vstr _ => true
  | .vbool _ => true
  | .vint _ => true
  | _ => false

/-- The fields map a point write is built from: the loop of InsertJson
over the flattened row, keeping only entries passing the kind filter.
The loop itself never fails. -/
def buildFields (flatjson : FlatMap) : FlatMap :=
  flatjson.foldl
    (fun fields kv => if keepFieldKind kv.2 then setk fields kv.1 kv.2 else fields) []

/-- Claim C7: only entries of kind Float64, String, Bool, or Int are kept
when building point fields; null or any other kind is silently dropped
with no failure, so a row with one supported and one unsupported entry
yields exactly the supported entry, in either order. -/
theorem buildFields_filters :
    (∀ v : GoValue, keepFieldKind v = true ↔
      ((∃ x, v = .vfloat x) ∨ (∃ s, v = .vstr s) ∨
        (∃ b, v = .vbool b) ∨ (∃ i, v = .vint i))) ∧
    (∀ (k1 k2 : String) (v1 v2 : GoValue),
      keepFieldKind v1 = true → keepFieldKind v2 = false →
      buildFields [(k1, v1), (k2, v2)] = [(k1, v1)] ∧
        buildFields [(k2, v2), (k1, v1)] = [(k1, v1)]) := by
  constructor
  · intro v
    cases v <;> simp [keepFieldKind]
  · intro k1 k2 v1 v2 h1 h2
    constructor
    · show List.foldl _ [] _ = _
      simp [h1, h2, setk_nil]
    · show List.foldl _ [] _ = _
      simp [h1, h2, setk_nil]

/-- Claim C7 witness: a float entry survives while a nil entry is
dropped, in either order. -/
theorem buildFields_filters_witness :
    buildFields [("a", .vfloat 1), ("b", .vnil)] = [("a", .vfloat 1)] ∧
      buildFields [("b", .vnil), ("a", .vfloat 1)] = [("a", .vfloat 1)] :=
  buildFields_filters.2 "a" "b" (.vfloat 1) .vnil rfl rfl

/-- One row of a query result as the v2 Get consumes it: the record
values in delivery order, and the parse error the cursor may report
after iteration. -/
structure QueryResp where
  records : List GoValue
  parseErr : Option String

/-- Outcome of the underlying Query call inside Get: either a cursor or
an error from the store. -/
inductive QueryOutcome where
  | ok (resp : QueryResp)
  | fail (msg : String)

/-- The v2 Get with the external Query call abstracted by its outcome:
on a cursor, the loop keeps the last record value and any cursor parse
error is only logged; on a failed Query the error is only logged; in
both cases Get returns a nil error together with whatever result value
was reached. -/
def Get (q : QueryOutcome) : Option GoValue × Option String :=
  match q with
  | .ok resp => (resp.records.foldl (fun _ r => some r) none, none)
  | .fail _ => (none, none)

/-- Claim C9: Get always returns a nil error; in particular a failed
Query is only logged and the caller receives a nil result with a nil
error rather than the failure. -/
theorem get_always_nil_error :
    (∀ q : QueryOutcome, (Get q).2 = none) ∧
      (∀ msg : String, Get (.fail msg) = (none, none)) := by
  constructor
  · intro q
    cases q <;> rfl
  · intro msg
    rfl

end Stslgo
